import Mathlib

/-!
# Verification of the `analyze` report generator (`src/execute.py`)

Shallow embedding of the one-shot batch pipeline in `execute.py`:
load a transactions table, derive `revenue = units * price`, parse dates,
and compute four metrics (`row_count`, `regions_count`,
`top_n_products_by_revenue`, `rolling_7d_revenue_by_region`).

Modelling decisions, each tied to a line of the source:

* A record (`Row`) carries `date`, `region`, `product`, `units`, `price`.
  Calendar dates are integer day numbers (`pd.to_datetime` values at
  midnight; day arithmetic such as the `'7D'` window offset becomes
  integer arithmetic).  Numeric fields are rationals, standing for the
  exact values of the numeric computation.
* `df["revenue"] = df["units"] * df["price"]` (line 12) becomes
  `deriveRevenue` / `derivedTable`, attaching the derived field to every
  record before any aggregation.
* `df.groupby(key)` with pandas' default `sort=True` yields the distinct
  keys in ascending order; this is `insertionSort (≤)` applied to the
  distinct keys in first-seen order (`firstSeen`).
* `Series.sort_values(ascending=False)` (line 31): pandas argsorts the
  values ascending with the default kind and then reverses the indexer;
  on arrays of the size handled here numpy's sort is stable, so the
  faithful embedding is "stable ascending sort, then reverse"
  (`sortValuesDesc`).
* `.rolling(window='7D', min_periods=1).mean()` (line 58): a time-based
  window, closed on the right by default, so at row `i` the window holds
  the rows `j ≤ i` whose date `d_j` satisfies `d_i - 7 < d_j ≤ d_i`
  (`rollingWindowAt`); with `min_periods=1` every row yields a value.
* `round(float(x), 2)` is `round2`, rounding to 2 decimal places.
  Python's float `round` is round-half-to-even on binary floats; the
  embedding uses the standard `round` on rationals.  The two agree except
  at exact half-cent boundaries, a convention the computation does not
  pin down (the values proved about below are away from such boundaries).
* Loading and parsing (`pd.read_csv`, `pd.to_datetime`, the numeric
  multiply) can raise; an uncaught exception aborts the process with a
  nonzero exit code before the single `print` at the end.  `RawRow`
  models a raw record whose fields may fail to convert (`none` = the
  value cannot be interpreted as the expected type), `runPipeline` the
  whole program in the `Except` monad, `exitCode`/`emittedReport` the
  observable process outcome.
-/

namespace Analyze

/-- Calendar dates as integer day numbers. -/
abbrev Date := Int

/-- One input transaction record, after successful loading/parsing. -/
structure Row where
  date : Date
  region : String
  product : String
  units : Rat
  price : Rat
deriving DecidableEq

/-- A record of the derived table: a `Row` together with the derived
`revenue` attribute (line 12 of the source attaches the column). -/
structure DRow where
  date : Date
  region : String
  product : String
  units : Rat
  price : Rat
  revenue : Rat
deriving DecidableEq

/-- `df["revenue"] = df["units"] * df["price"]` applied to one record. -/
def deriveRevenue (r : Row) : DRow :=
  { date := r.date, region := r.region, product := r.product,
    units := r.units, price := r.price, revenue := r.units * r.price }

/-- The fully derived table (the `DataFrame` after lines 12 and 16). -/
def derivedTable (rows : List Row) : List DRow :=
  rows.map deriveRevenue

/-- Distinct elements of `l` not in `seen`, in first-seen order. -/
def firstSeenAux {α : Type} [DecidableEq α] (seen : List α) : List α → List α
  | [] => []
  | x :: xs =>
      if x ∈ seen then firstSeenAux seen xs
      else x :: firstSeenAux (x :: seen) xs

/-- The distinct values of `l` in the order of their first occurrence
(the order in which a pandas groupby first encounters each key). -/
def firstSeen {α : Type} [DecidableEq α] (l : List α) : List α :=
  firstSeenAux [] l

/-- Lexicographic (code-point) order on labels, the order in which
pandas sorts string group keys.  Stated on the underlying character
lists, which carries exactly the standard string order. -/
def labelLe (a b : String) : Prop :=
  a.data ≤ b.data

/-- Strict lexicographic order on labels. -/
def labelLt (a b : String) : Prop :=
  a.data < b.data

instance : DecidableRel labelLe :=
  fun a b => inferInstanceAs (Decidable (a.data ≤ b.data))

instance : DecidableRel labelLt :=
  fun a b => inferInstanceAs (Decidable (a.data < b.data))

instance : IsTotal String labelLe :=
  ⟨fun a b => le_total a.data b.data⟩

instance : IsTrans String labelLe :=
  ⟨fun _ _ _ h1 h2 => le_trans h1 h2⟩

/-- `row_count = len(df)` (line 19). -/
def row_count (t : List DRow) : Nat :=
  t.length

/-- `regions_count = df["region"].nunique()` (line 22). -/
def regions_count (t : List DRow) : Nat :=
  (firstSeen (t.map DRow.region)).length

/-- The summed revenue of one product group:
`df.groupby("product")["revenue"].sum()` at key `p` (line 29-30). -/
def productSum (t : List DRow) (p : String) : Rat :=
  ((t.filter fun r => r.product = p).map DRow.revenue).sum

/-- The distinct product keys as `groupby("product")` (default
`sort=True`) produces them: ascending order. -/
def productKeys (t : List DRow) : List String :=
  List.insertionSort labelLe (firstSeen (t.map DRow.product))

/-- The per-product revenue sums, one entry per distinct product, indexed
in the sorted key order of the groupby (lines 28-30). -/
def productTotals (t : List DRow) : List (String × Rat) :=
  (productKeys t).map fun p => (p, productSum t p)

/-- The comparison used by `sort_values`: compare entries by their
summed revenue only. -/
def valueLe (a b : String × Rat) : Prop :=
  a.2 ≤ b.2

instance : DecidableRel valueLe :=
  fun a b => inferInstanceAs (Decidable (a.2 ≤ b.2))

instance : IsTotal (String × Rat) valueLe :=
  ⟨fun a b => le_total a.2 b.2⟩

instance : IsTrans (String × Rat) valueLe :=
  ⟨fun _ _ _ h1 h2 => le_trans h1 h2⟩

/-- `Series.sort_values(ascending=False)` (line 31): pandas argsorts the
values ascending (stable at these sizes) and reverses the indexer. -/
def sortValuesDesc (l : List (String × Rat)) : List (String × Rat) :=
  (List.insertionSort valueLe l).reverse

/-- `round(float(x), 2)` (lines 38 and 66). -/
def round2 (q : Rat) : Rat :=
  ((round (q * 100) : Int) : Rat) / 100

/-- `n = 3` (line 25). -/
def topN : Nat := 3

/-- `top_n_products_by_revenue` (lines 28-40): group by product, sum
revenue, sort descending, take the first 3, round each sum. -/
def top_n_products_by_revenue (t : List DRow) : List (String × Rat) :=
  ((sortValuesDesc (productTotals t)).take topN).map fun pr => (pr.1, round2 pr.2)

/-- The distinct region keys as `groupby('region')` produces them
(ascending; lines 22 and 54). -/
def regionKeys (t : List DRow) : List String :=
  List.insertionSort labelLe (firstSeen (t.map DRow.region))

/-- The distinct dates of region `g`, ascending: the date index of the
rows of `daily_region_revenue` belonging to `g` after
`set_index('date').sort_index()` (lines 45-50; within one region the
dates of the `(region, date)` grouping are distinct, so their order in
the region's partition is ascending regardless of sort stability). -/
def regionDates (t : List DRow) (g : String) : List Date :=
  List.insertionSort (fun a b => a ≤ b)
    (firstSeen ((t.filter fun r => r.region = g).map DRow.date))

/-- `df.groupby(['region', 'date'])['revenue'].sum()` at one
`(region, date)` pair (lines 45-47). -/
def dailySum (t : List DRow) (g : String) (d : Date) : Rat :=
  ((t.filter fun r => r.region = g ∧ r.date = d).map DRow.revenue).sum

/-- Region `g`'s partition of `daily_region_revenue`: its daily revenue
sums in ascending date order (the series `group['revenue']` of line 58
together with its date index). -/
def regionSeries (t : List DRow) (g : String) : List (Date × Rat) :=
  (regionDates t g).map fun d => (d, dailySum t g d)

/-- Arithmetic mean of a list of rationals. -/
def listMean (l : List Rat) : Rat :=
  l.sum / (l.length : Rat)

/-- The window of `series.rolling(window='7D')` at row `i`: the rows
`j ≤ i` (positional) whose date lies in the right-closed interval
`(d_i - 7, d_i]` (line 58; `'7D'` windows are closed on the right). -/
def rollingWindowAt (series : List (Date × Rat)) (i : Nat) : List (Date × Rat) :=
  match series[i]? with
  | none => []
  | some e => (series.take (i + 1)).filter fun x => e.1 - 7 < x.1

/-- `rolling(window='7D', min_periods=1).mean()` at row `i` (line 58). -/
def rollingMeanAt (series : List (Date × Rat)) (i : Nat) : Rat :=
  listMean ((rollingWindowAt series i).map Prod.snd)

/-- Lines 58-67 for one region: the last value of the rolling mean
(`rolling_avg.iloc[-1]`), `none` when the series is empty (the
`else np.nan` branch, emitted as `None`), otherwise rounded. -/
def lastRollingValue (t : List DRow) (g : String) : Option Rat :=
  if (regionSeries t g).isEmpty then none
  else some (round2 (rollingMeanAt (regionSeries t g) ((regionSeries t g).length - 1)))

/-- `rolling_7d_revenue_by_region` (lines 52-67): one entry per region
key of the `(region, date)` grouping, in groupby (ascending) key order. -/
def rolling_7d_revenue_by_region (t : List DRow) : List (String × Option Rat) :=
  (regionKeys t).map fun g => (g, lastRollingValue t g)

/-- `result_json` (lines 70-75). -/
structure Report where
  row_count : Nat
  regions_count : Nat
  top_n_products_by_revenue : List (String × Rat)
  rolling_7d_revenue_by_region : List (String × Option Rat)
deriving DecidableEq

/-- The report computed from the derived table (lines 18-75). -/
def makeReportD (t : List DRow) : Report :=
  { row_count := row_count t
    regions_count := regions_count t
    top_n_products_by_revenue := top_n_products_by_revenue t
    rolling_7d_revenue_by_region := rolling_7d_revenue_by_region t }

/-- The report computed from loaded rows: derive `revenue`, then compute
all four metrics from the derived table. -/
def makeReport (rows : List Row) : Report :=
  makeReportD (derivedTable rows)

/-- A raw input record before type conversion.  A field is `none` when
its value cannot be interpreted as the expected type (an unparseable
`date` for `pd.to_datetime`, a non-numeric `units`/`price` for the
numeric multiply); converting such a value raises in pandas. -/
structure RawRow where
  date : Option Date
  region : String
  product : String
  units : Option Rat
  price : Option Rat

/-- Conversion of one raw record (lines 12 and 16).  Any field that
cannot be interpreted raises; the exception is never caught. -/
def loadRow (r : RawRow) : Except String Row :=
  match r.units with
  | none => .error "ParseError: units is not numeric"
  | some u =>
      match r.price with
      | none => .error "ParseError: price is not numeric"
      | some p =>
          match r.date with
          | none => .error "ParseError: date is unparseable"
          | some d => .ok ⟨d, r.region, r.product, u, p⟩

/-- Conversion of the whole raw table; the first failure propagates. -/
def loadTable : List RawRow → Except String (List Row)
  | [] => pure []
  | r :: rs => do
      let row ← loadRow r
      let rest ← loadTable rs
      pure (row :: rest)

/-- The whole program run on a raw input: load and convert, then compute
and emit the report.  An error propagates to the top level uncaught. -/
def runPipeline (raws : List RawRow) : Except String Report := do
  let rows ← loadTable raws
  pure (makeReport rows)

/-- Process exit code: 0 on success, nonzero on an uncaught exception. -/
def exitCode (raws : List RawRow) : Nat :=
  match runPipeline raws with
  | .ok _ => 0
  | .error _ => 1

/-- The report printed to stdout, if any: the single `print` at line 78
runs only when no step raised, so a failed run emits nothing. -/
def emittedReport (raws : List RawRow) : Option Report :=
  (runPipeline raws).toOption

/-! ## Concrete inputs used as test vectors -/

/-- Two products with equal summed revenue, first seen "A" then "B". -/
def tieInput : List Row :=
  [ ⟨1, "R", "A", 1, 10⟩, ⟨1, "R", "B", 1, 10⟩ ]

/-- One region with revenue on day 1 and day 10 only: the gap exceeds
the 7-day window. -/
def gapInput : List Row :=
  [ ⟨1, "G", "P", 1, 30⟩, ⟨10, "G", "P", 1, 70⟩ ]

/-- One region, one date, two products with revenues 100 and 50. -/
def singleDayInput : List Row :=
  [ ⟨1, "RegionX", "A", 1, 100⟩, ⟨1, "RegionX", "B", 1, 50⟩ ]

/-- A raw record whose every field converts. -/
def goodRaw : RawRow :=
  ⟨some 1, "R", "A", some 2, some 3⟩

/-- The row `goodRaw` loads to. -/
def goodRow : Row :=
  ⟨1, "R", "A", 2, 3⟩

/-- A raw record with an unparseable date. -/
def badRaw : RawRow :=
  ⟨none, "R", "A", some 2, some 3⟩

/-! ## Supporting lemmas -/

theorem mem_firstSeenAux {α : Type} [DecidableEq α] {x : α} :
    ∀ {seen l : List α}, x ∈ firstSeenAux seen l ↔ x ∈ l ∧ x ∉ seen := by
  intro seen l
  induction l generalizing seen with
  | nil => simp [firstSeenAux]
  | cons y ys ih =>
      by_cases hy : y ∈ seen
      · simp only [firstSeenAux, if_pos hy, ih, List.mem_cons]
        constructor
        · rintro ⟨hmem, hns⟩; exact ⟨Or.inr hmem, hns⟩
        · rintro ⟨hxy | hmem, hns⟩
          · exact absurd (hxy ▸ hy) hns
          · exact ⟨hmem, hns⟩
      · simp only [firstSeenAux, if_neg hy, List.mem_cons, ih]
        constructor
        · rintro (rfl | ⟨hmem, hns⟩)
          · exact ⟨Or.inl rfl, hy⟩
          · exact ⟨Or.inr hmem, fun hs => hns (Or.inr hs)⟩
        · rintro ⟨rfl | hmem, hns⟩
          · exact Or.inl rfl
          · by_cases hxy : x = y
            · exact Or.inl hxy
            · exact Or.inr ⟨hmem, by simp [hxy, hns]⟩

theorem mem_firstSeen {α : Type} [DecidableEq α] {x : α} {l : List α} :
    x ∈ firstSeen l ↔ x ∈ l := by
  simp [firstSeen, mem_firstSeenAux]

theorem nodup_firstSeenAux {α : Type} [DecidableEq α] :
    ∀ {seen l : List α}, (firstSeenAux seen l).Nodup := by
  intro seen l
  induction l generalizing seen with
  | nil => simp [firstSeenAux]
  | cons y ys ih =>
      by_cases hy : y ∈ seen
      · simpa [firstSeenAux, if_pos hy] using ih
      · simp only [firstSeenAux, if_neg hy, List.nodup_cons]
        refine ⟨fun hmem => ?_, ih⟩
        exact (mem_firstSeenAux.1 hmem).2 (List.mem_cons_self _ _)

theorem nodup_firstSeen {α : Type} [DecidableEq α] {l : List α} :
    (firstSeen l).Nodup :=
  nodup_firstSeenAux

theorem firstSeen_eq_nil_iff {α : Type} [DecidableEq α] {l : List α} :
    firstSeen l = [] ↔ l = [] := by
  constructor
  · intro h
    cases l with
    | nil => rfl
    | cons x xs =>
        exact absurd (h ▸ mem_firstSeen.2 (List.mem_cons_self x xs)) (List.not_mem_nil x)
  · rintro rfl; rfl

theorem label_ext {a b : String} (h : a.data = b.data) : a = b :=
  congrArg String.mk h

theorem labelLt_of_le_of_ne {a b : String} (hle : labelLe a b) (hne : a ≠ b) :
    labelLt a b :=
  lt_of_le_of_ne hle fun h => hne (label_ext h)

theorem productKeys_nodup (t : List DRow) : (productKeys t).Nodup :=
  ((List.perm_insertionSort _ _).nodup_iff).2 nodup_firstSeen

theorem productKeys_sorted (t : List DRow) : (productKeys t).Sorted labelLe :=
  List.sorted_insertionSort _ _

theorem productKeys_pairwise_lt (t : List DRow) : (productKeys t).Pairwise labelLt :=
  ((productKeys_sorted t).and (productKeys_nodup t)).imp
    fun h => labelLt_of_le_of_ne h.1 h.2

/-- Inserting `a` into `l` preserves a pairwise invariant `Q`, provided
`Q` relates `a` forward to everything in `l` and backward to anything
the insertion walks past (anything `c` with `¬ r a c`). -/
theorem pairwise_orderedInsert_of {α : Type} (r : α → α → Prop) [DecidableRel r]
    (Q : α → α → Prop) (hvac : ∀ a c, ¬ r a c → Q c a) (a : α) :
    ∀ l : List α, l.Pairwise Q → (∀ b ∈ l, Q a b) →
      (List.orderedInsert r a l).Pairwise Q := by
  intro l
  induction l with
  | nil => intro _ _; simp [List.orderedInsert]
  | cons b l ih =>
      intro hQl ha
      by_cases hr : r a b
      · rw [List.orderedInsert, if_pos hr]
        exact List.Pairwise.cons ha hQl
      · rw [List.orderedInsert, if_neg hr]
        have hb := List.pairwise_cons.1 hQl
        refine List.Pairwise.cons ?_
          (ih hb.2 fun c hc => ha c (List.mem_cons_of_mem _ hc))
        intro c hc
        rcases (List.mem_orderedInsert r).1 hc with rfl | hcl
        · exact hvac c b hr
        · exact hb.1 c hcl

/-- The stable insertion sort preserves a pairwise invariant `Q` that
holds vacuously across strict drops of the sort key. -/
theorem pairwise_insertionSort_of {α : Type} (r : α → α → Prop) [DecidableRel r]
    (Q : α → α → Prop) (hvac : ∀ a c, ¬ r a c → Q c a) :
    ∀ l : List α, l.Pairwise Q → (List.insertionSort r l).Pairwise Q := by
  intro l
  induction l with
  | nil => intro hl; exact hl
  | cons b l ih =>
      intro hl
      rw [List.insertionSort]
      have hb := List.pairwise_cons.1 hl
      refine pairwise_orderedInsert_of r Q hvac b _ (ih hb.2) ?_
      intro c hc
      exact hb.1 c ((List.mem_insertionSort r).1 hc)

theorem regionDates_nodup (t : List DRow) (g : String) : (regionDates t g).Nodup :=
  ((List.perm_insertionSort _ _).nodup_iff).2 nodup_firstSeen

theorem regionDates_sorted (t : List DRow) (g : String) :
    (regionDates t g).Sorted (fun a b : Date => a ≤ b) :=
  List.sorted_insertionSort _ _

theorem regionDates_sorted_lt (t : List DRow) (g : String) :
    (regionDates t g).Sorted (fun a b : Date => a < b) :=
  (regionDates_sorted t g).lt_of_le (regionDates_nodup t g)

theorem regionSeries_pairwise (t : List DRow) (g : String) :
    (regionSeries t g).Pairwise (fun x y : Date × Rat => x.1 < y.1) :=
  List.pairwise_map.2 (regionDates_sorted_lt t g)

theorem take_date_le {series : List (Date × Rat)} {i : Nat} {e : Date × Rat}
    (h : series[i]? = some e)
    (hsort : series.Pairwise fun x y : Date × Rat => x.1 < y.1) :
    ∀ x ∈ series.take (i + 1), x.1 ≤ e.1 := by
  intro x hx
  have htp : (series.take (i + 1)).Pairwise (fun x y : Date × Rat => x.1 < y.1) :=
    List.Pairwise.sublist (List.take_sublist (i + 1) series) hsort
  rw [List.take_succ, h] at htp hx
  rcases List.mem_append.1 hx with hxt | hxe
  · have := (List.pairwise_append.1 htp).2.2 x hxt e (by simp)
    exact le_of_lt this
  · simp only [Option.toList_some, List.mem_singleton] at hxe
    exact le_of_eq (congrArg Prod.fst hxe)

theorem drop_date_gt {series : List (Date × Rat)} {i : Nat} {e : Date × Rat}
    (h : series[i]? = some e)
    (hsort : series.Pairwise fun x y : Date × Rat => x.1 < y.1) :
    ∀ y ∈ series.drop (i + 1), e.1 < y.1 := by
  intro y hy
  have hs2 : (series.take (i + 1) ++ series.drop (i + 1)).Pairwise
      (fun x y : Date × Rat => x.1 < y.1) := by
    rw [List.take_append_drop]; exact hsort
  have hmem : e ∈ series.take (i + 1) := by
    rw [List.take_succ, h]
    exact List.mem_append.2 (Or.inr (by simp))
  exact (List.pairwise_append.1 hs2).2.2 e hmem y hy

/-- The positional, right-closed `'7D'` window of the source coincides
with the 7-calendar-day inclusive trailing window of the spec, because
the series is strictly sorted by date. -/
theorem rollingWindow_eq_calendar {series : List (Date × Rat)} {i : Nat} {e : Date × Rat}
    (h : series[i]? = some e)
    (hsort : series.Pairwise fun x y : Date × Rat => x.1 < y.1) :
    rollingWindowAt series i = series.filter fun x => e.1 - 6 ≤ x.1 ∧ x.1 ≤ e.1 := by
  unfold rollingWindowAt
  rw [h]
  conv_rhs => rw [← List.take_append_drop (i + 1) series]
  rw [List.filter_append]
  have hdrop : (series.drop (i + 1)).filter
      (fun x => decide (e.1 - 6 ≤ x.1 ∧ x.1 ≤ e.1)) = [] := by
    rw [List.filter_eq_nil_iff]
    intro y hy
    have hgt := drop_date_gt h hsort y hy
    simp only [decide_eq_true_eq, not_and]
    exact fun _ hle => absurd hgt (not_lt.2 hle)
  rw [hdrop, List.append_nil]
  apply List.filter_congr
  intro x hx
  have hxe := take_date_le h hsort x hx
  simp only [decide_eq_decide]
  constructor
  · intro h5
    have h7 := Int.lt_iff_add_one_le.1 h5
    exact ⟨by linarith, hxe⟩
  · rintro ⟨h6, _⟩
    exact Int.lt_iff_add_one_le.2 (by linarith)

theorem round2_mono {a b : Rat} (h : a ≤ b) : round2 a ≤ round2 b := by
  unfold round2
  have h2 : round (a * 100) ≤ round (b * 100) := by
    rw [round_eq, round_eq]
    exact Int.floor_mono (by linarith)
  have h3 : ((round (a * 100) : Int) : Rat) ≤ ((round (b * 100) : Int) : Rat) := by
    exact_mod_cast h2
  gcongr

theorem sorted_le_getLast {l : List Date} (hs : l.Sorted (fun a b : Date => a ≤ b))
    (hne : l ≠ []) : ∀ d ∈ l, d ≤ l.getLast hne := by
  intro d hd
  have hsplit : l.dropLast ++ [l.getLast hne] = l := List.dropLast_append_getLast hne
  have hp : (l.dropLast ++ [l.getLast hne]).Pairwise (fun a b : Date => a ≤ b) := by
    rw [hsplit]; exact hs
  rw [← hsplit] at hd
  rcases List.mem_append.1 hd with hdl | hde
  · exact (List.pairwise_append.1 hp).2.2 d hdl _ (by simp)
  · simp only [List.mem_singleton] at hde
    exact le_of_eq hde

theorem sorted_getLast_eq_max {l : List Date} {d : Date}
    (hs : l.Sorted (fun a b : Date => a ≤ b)) (hd : d ∈ l) (hmax : ∀ e ∈ l, e ≤ d) :
    l[l.length - 1]? = some d := by
  have hne : l ≠ [] := List.ne_nil_of_mem hd
  rw [← List.getLast?_eq_getElem?, List.getLast?_eq_getLast l hne]
  have h1 : l.getLast hne ≤ d := hmax _ (List.getLast_mem hne)
  have h2 : d ≤ l.getLast hne := sorted_le_getLast hs hne d hd
  exact congrArg some (le_antisymm h1 h2)

theorem lookup_map_self {β : Type} (f : String → β) :
    ∀ (l : List String) (g : String), g ∈ l →
      List.lookup g (l.map fun k => (k, f k)) = some (f g) := by
  intro l
  induction l with
  | nil => intro g hg; cases hg
  | cons k l ih =>
      intro g hg
      rw [List.map_cons, List.lookup_cons]
      by_cases hk : g = k
      · subst hk; simp
      · have hb : (g == k) = false := beq_false_of_ne hk
        rw [hb]
        exact ih g ((List.mem_cons.1 hg).resolve_left hk)

theorem loadRow_error_of {r : RawRow}
    (h : r.date = none ∨ r.units = none ∨ r.price = none) :
    ∃ msg, loadRow r = .error msg := by
  unfold loadRow
  cases hu : r.units with
  | none => exact ⟨"ParseError: units is not numeric", rfl⟩
  | some u =>
      cases hp : r.price with
      | none => exact ⟨"ParseError: price is not numeric", rfl⟩
      | some p =>
          cases hd : r.date with
          | none => exact ⟨"ParseError: date is unparseable", rfl⟩
          | some d => rcases h with h | h | h <;> simp_all

theorem loadRow_ok_of {r : RawRow} {d : Date} {u p : Rat}
    (hd : r.date = some d) (hu : r.units = some u) (hp : r.price = some p) :
    loadRow r = .ok ⟨d, r.region, r.product, u, p⟩ := by
  unfold loadRow
  rw [hd, hu, hp]

theorem loadTable_ok_of :
    ∀ raws : List RawRow,
      (∀ r ∈ raws, r.date ≠ none ∧ r.units ≠ none ∧ r.price ≠ none) →
      ∃ rows, loadTable raws = .ok rows := by
  intro raws
  induction raws with
  | nil => intro _; exact ⟨[], rfl⟩
  | cons r rs ih =>
      intro h
      obtain ⟨hd, hu, hp⟩ := h r (List.mem_cons_self r rs)
      obtain ⟨d, hd2⟩ := Option.ne_none_iff_exists'.1 hd
      obtain ⟨u, hu2⟩ := Option.ne_none_iff_exists'.1 hu
      obtain ⟨p, hp2⟩ := Option.ne_none_iff_exists'.1 hp
      obtain ⟨rows, hrows⟩ := ih fun x hx => h x (List.mem_cons_of_mem _ hx)
      refine ⟨⟨d, r.region, r.product, u, p⟩ :: rows, ?_⟩
      rw [loadTable, loadRow_ok_of hd2 hu2 hp2, hrows]
      rfl

theorem loadTable_error_of :
    ∀ raws : List RawRow,
      (∃ r ∈ raws, r.date = none ∨ r.units = none ∨ r.price = none) →
      ∃ msg, loadTable raws = .error msg := by
  intro raws
  induction raws with
  | nil => rintro ⟨x, hx, _⟩; cases hx
  | cons r rs ih =>
      rintro ⟨x, hx, hbad⟩
      rcases List.mem_cons.1 hx with rfl | hxs
      · obtain ⟨msg, hmsg⟩ := loadRow_error_of hbad
        refine ⟨msg, ?_⟩
        rw [loadTable, hmsg]
        rfl
      · cases hlr : loadRow r with
        | error msg =>
            refine ⟨msg, ?_⟩
            rw [loadTable, hlr]
            rfl
        | ok row =>
            obtain ⟨msg, hmsg⟩ := ih ⟨x, hxs, hbad⟩
            refine ⟨msg, ?_⟩
            rw [loadTable, hlr, hmsg]
            rfl

theorem lastRollingValue_isSome {t : List DRow} {g : String}
    (hg : g ∈ t.map DRow.region) : ∃ q, lastRollingValue t g = some q := by
  obtain ⟨r, hr, hreg⟩ := List.mem_map.1 hg
  have hfilter : r ∈ t.filter fun x => x.region = g := by
    rw [List.mem_filter]
    exact ⟨hr, by simp [hreg]⟩
  have hdates_ne : regionDates t g ≠ [] := by
    unfold regionDates
    intro hnil
    have hperm := List.perm_insertionSort (fun a b : Date => a ≤ b)
      (firstSeen ((t.filter fun x => x.region = g).map DRow.date))
    rw [hnil] at hperm
    have h0 : firstSeen ((t.filter fun x => x.region = g).map DRow.date) = [] :=
      List.perm_nil.1 hperm.symm
    have hmap : (t.filter fun x => x.region = g).map DRow.date = [] :=
      firstSeen_eq_nil_iff.1 h0
    rw [List.map_eq_nil_iff] at hmap
    rw [hmap] at hfilter
    cases hfilter
  have hseries_ne : regionSeries t g ≠ [] := by
    unfold regionSeries
    simpa [List.map_eq_nil_iff] using hdates_ne
  unfold lastRollingValue
  rw [if_neg (by simpa [List.isEmpty_iff] using hseries_ne)]
  exact ⟨_, rfl⟩

/-- The rolling mean at row `i` of a region's series equals the mean of
the daily sums over the 7-calendar-day inclusive window ending at the
date indexed at `i`. -/
theorem rollingMeanAt_eq_calendar (t : List DRow) (g : String) (i : Nat) (d : Date)
    (h : (regionDates t g)[i]? = some d) :
    rollingMeanAt (regionSeries t g) i =
      listMean (((regionDates t g).filter fun e => d - 6 ≤ e ∧ e ≤ d).map (dailySum t g)) := by
  have hseries : (regionSeries t g)[i]? = some (d, dailySum t g d) := by
    unfold regionSeries
    rw [List.getElem?_map, h]
    rfl
  unfold rollingMeanAt
  rw [rollingWindow_eq_calendar hseries (regionSeries_pairwise t g)]
  unfold regionSeries
  rw [List.filter_map, List.map_map]
  rfl

/-! ## Claims -/

/-- C2: for every region and every date `d` in that region's daily
series, the rolling value at `d` is the mean of the daily region revenue
sums at all dates `e` of the same region with `d - 6 ≤ e ≤ d` (a
7-calendar-day inclusive trailing window, not a 7-row window). -/
theorem rolling_mean_is_calendar_window (t : List DRow) (g : String) (i : Nat) (d : Date)
    (h : (regionDates t g)[i]? = some d) :
    rollingMeanAt (regionSeries t g) i =
      listMean (((regionDates t g).filter fun e => d - 6 ≤ e ∧ e ≤ d).map (dailySum t g)) :=
  rollingMeanAt_eq_calendar t g i d h

/-- C3: the value stored per region is the trailing-window average
evaluated at the latest date present for that region, computed over the
per-(region, date) summed daily revenue. -/
theorem retained_value_at_latest_date (t : List DRow) (g : String) (d : Date)
    (hd : d ∈ regionDates t g) (hmax : ∀ e ∈ regionDates t g, e ≤ d) :
    List.lookup g (rolling_7d_revenue_by_region t) =
      some (some (round2 (listMean
        (((regionDates t g).filter fun e => d - 6 ≤ e ∧ e ≤ d).map (dailySum t g))))) := by
  have hgmem : g ∈ regionKeys t := by
    have hd2 := mem_firstSeen.1 ((List.mem_insertionSort _).1 hd)
    obtain ⟨r, hr, hrd⟩ := List.mem_map.1 hd2
    have hrf := List.mem_filter.1 hr
    have hreg : r.region = g := by simpa using hrf.2
    exact (List.mem_insertionSort _).2
      (mem_firstSeen.2 (List.mem_map.2 ⟨r, hrf.1, hreg⟩))
  unfold rolling_7d_revenue_by_region
  rw [lookup_map_self (fun k => lastRollingValue t k) _ g hgmem]
  have hne : regionSeries t g ≠ [] := by
    unfold regionSeries
    intro h0
    rw [List.map_eq_nil_iff] at h0
    rw [h0] at hd
    cases hd
  have hlen : (regionSeries t g).length = (regionDates t g).length := by
    unfold regionSeries
    rw [List.length_map]
  have hlast : (regionDates t g)[(regionDates t g).length - 1]? = some d :=
    sorted_getLast_eq_max (regionDates_sorted t g) hd hmax
  unfold lastRollingValue
  rw [if_neg (by simpa [List.isEmpty_iff] using hne), hlen,
    rollingMeanAt_eq_calendar t g _ d hlast]

/-- C4: the length of `top_n_products_by_revenue` equals
`min 3 (number of distinct product values in the input)`. -/
theorem topn_length_eq_min (rows : List Row) :
    (top_n_products_by_revenue (derivedTable rows)).length =
      min 3 (firstSeen (rows.map Row.product)).length := by
  unfold top_n_products_by_revenue
  rw [List.length_map, List.length_take]
  unfold sortValuesDesc
  rw [List.length_reverse, List.length_insertionSort]
  unfold productTotals productKeys
  rw [List.length_map, List.length_insertionSort]
  unfold derivedTable
  rw [List.map_map]
  rfl

/-- C5: `top_n_products_by_revenue` is sorted by revenue in descending
order: every earlier entry's revenue is ≥ every later entry's. -/
theorem topn_sorted_descending (rows : List Row) :
    (top_n_products_by_revenue (derivedTable rows)).Pairwise
      fun a b => b.2 ≤ a.2 := by
  have hs : (List.insertionSort valueLe (productTotals (derivedTable rows))).Pairwise valueLe :=
    List.sorted_insertionSort valueLe _
  have hrev : (sortValuesDesc (productTotals (derivedTable rows))).Pairwise
      fun a b => valueLe b a := by
    unfold sortValuesDesc
    exact List.pairwise_reverse.2 hs
  have htake := List.Pairwise.sublist (List.take_sublist topN _) hrev
  unfold top_n_products_by_revenue
  exact List.Pairwise.map _ (fun a b hab => round2_mono hab) htake

/-- C6: the key set of `rolling_7d_revenue_by_region` is exactly the set
of distinct region labels occurring in the input: one entry per distinct
region, no more, no fewer. -/
theorem rolling_keys_are_regions (rows : List Row) :
    ((rolling_7d_revenue_by_region (derivedTable rows)).map Prod.fst).Nodup ∧
    ∀ g : String,
      g ∈ (rolling_7d_revenue_by_region (derivedTable rows)).map Prod.fst ↔
        g ∈ rows.map Row.region := by
  have hkeys : (rolling_7d_revenue_by_region (derivedTable rows)).map Prod.fst =
      regionKeys (derivedTable rows) := by
    unfold rolling_7d_revenue_by_region
    rw [List.map_map]
    exact List.map_id _
  rw [hkeys]
  constructor
  · exact ((List.perm_insertionSort _ _).nodup_iff).2 nodup_firstSeen
  · intro g
    unfold regionKeys
    rw [List.mem_insertionSort, mem_firstSeen]
    unfold derivedTable
    rw [List.map_map]
    exact Iff.rfl

/-- C7: every record of the derived table carries
`revenue = units * price`, attached before any aggregation, and the
whole report is computed from this derived table. -/
theorem revenue_derived_per_record (rows : List Row) (r : DRow)
    (h : r ∈ derivedTable rows) :
    r.revenue = r.units * r.price ∧ makeReport rows = makeReportD (derivedTable rows) := by
  refine ⟨?_, rfl⟩
  obtain ⟨r0, _, rfl⟩ := List.mem_map.1 h
  rfl

/-- C7 witness: the derivation holds at a concrete record of a concrete
input. -/
theorem revenue_derived_witness :
    (deriveRevenue ⟨1, "R", "A", 1, 10⟩).revenue =
        (deriveRevenue ⟨1, "R", "A", 1, 10⟩).units *
          (deriveRevenue ⟨1, "R", "A", 1, 10⟩).price ∧
    makeReport tieInput = makeReportD (derivedTable tieInput) :=
  revenue_derived_per_record tieInput (deriveRevenue ⟨1, "R", "A", 1, 10⟩)
    (by simp [derivedTable, tieInput])

/-- C8: an input with zero data rows succeeds and produces
`row_count = 0`, `regions_count = 0`, an empty top-N list and an empty
rolling map. -/
theorem empty_input_report :
    runPipeline [] = .ok (Report.mk 0 0 [] []) :=
  rfl

/-- C1 counterexample: on an input where products "A" and "B" (first
seen in that order) have equal summed revenue, the output order is
["B", "A"], not the first-seen order ["A", "B"]: the grouping sorts the
keys alphabetically and the descending value sort reverses a stable
ascending sort, so ties come out in reverse alphabetical order. -/
theorem topn_tie_counterexample :
    productSum (derivedTable tieInput) "A" = productSum (derivedTable tieInput) "B" ∧
    firstSeen ((derivedTable tieInput).map DRow.product) = ["A", "B"] ∧
    (top_n_products_by_revenue (derivedTable tieInput)).map Prod.fst = ["B", "A"] := by
  refine ⟨?_, by decide, ?_⟩
  · norm_num +decide [productSum, derivedTable, deriveRevenue, tieInput]
  · norm_num +decide [top_n_products_by_revenue, sortValuesDesc, productTotals,
      productKeys, productSum, derivedTable, deriveRevenue, tieInput, firstSeen,
      firstSeenAux, topN, List.insertionSort, List.orderedInsert, valueLe, labelLe,
      round2, round_eq]

/-- C1 amended: whenever two products in the output have equal summed
revenue, the later one is alphabetically smaller — tied products appear
in reverse alphabetical order (not first-seen order): `groupby` sorts the
distinct products ascending and `sort_values(ascending=False)` reverses
a stable ascending sort. -/
theorem topn_ties_reverse_alphabetical (rows : List Row) :
    (top_n_products_by_revenue (derivedTable rows)).Pairwise
      fun a b => productSum (derivedTable rows) a.1 = productSum (derivedTable rows) b.1 →
        labelLt b.1 a.1 := by
  set t := derivedTable rows with ht
  have h0 : (productTotals t).Pairwise
      fun a b : String × Rat => a.2 = b.2 → labelLt a.1 b.1 := by
    unfold productTotals
    exact List.Pairwise.map _ (fun a b hab _ => hab) (productKeys_pairwise_lt t)
  have h1 : (List.insertionSort valueLe (productTotals t)).Pairwise
      fun a b : String × Rat => a.2 = b.2 → labelLt a.1 b.1 := by
    refine pairwise_insertionSort_of valueLe _ ?_ _ h0
    intro a c hr heq
    exact absurd heq (ne_of_lt (lt_of_not_le hr))
  have h2 : (sortValuesDesc (productTotals t)).Pairwise
      fun a b : String × Rat => b.2 = a.2 → labelLt b.1 a.1 := by
    unfold sortValuesDesc
    exact List.pairwise_reverse.2 h1
  have h3 := List.Pairwise.sublist (List.take_sublist topN _) h2
  have hshape : ∀ x ∈ (sortValuesDesc (productTotals t)).take topN,
      x.2 = productSum t x.1 := by
    intro x hx
    have hx1 : x ∈ sortValuesDesc (productTotals t) :=
      (List.take_sublist topN _).mem hx
    have hx2 : x ∈ productTotals t := by
      unfold sortValuesDesc at hx1
      rw [List.mem_reverse] at hx1
      exact (List.mem_insertionSort _).1 hx1
    obtain ⟨p, _, rfl⟩ := List.mem_map.1 hx2
    rfl
  have h4 : ((sortValuesDesc (productTotals t)).take topN).Pairwise
      fun a b : String × Rat => productSum t a.1 = productSum t b.1 → labelLt b.1 a.1 := by
    refine List.Pairwise.imp_of_mem ?_ h3
    intro a b ha hb hR heq
    refine hR ?_
    rw [hshape b hb, hshape a ha]
    exact heq.symm
  unfold top_n_products_by_revenue
  exact List.Pairwise.map _ (fun a b hab => hab) h4

/-- C9: any raw record whose date cannot be parsed or whose units or
price is non-numeric makes the run fail with a nonzero exit code and no
emitted report; a fully parseable input exits 0. -/
theorem parse_failure_and_success (raws : List RawRow) :
    ((∃ r ∈ raws, r.date = none ∨ r.units = none ∨ r.price = none) →
      exitCode raws ≠ 0 ∧ emittedReport raws = none) ∧
    ((∀ r ∈ raws, r.date ≠ none ∧ r.units ≠ none ∧ r.price ≠ none) →
      exitCode raws = 0) := by
  constructor
  · intro hbad
    obtain ⟨msg, hmsg⟩ := loadTable_error_of raws hbad
    have hrun : runPipeline raws = .error msg := by
      unfold runPipeline
      rw [hmsg]
      rfl
    constructor
    · unfold exitCode
      rw [hrun]
      exact Nat.one_ne_zero
    · unfold emittedReport
      rw [hrun]
      rfl
  · intro hok
    obtain ⟨rows, hrows⟩ := loadTable_ok_of raws hok
    unfold exitCode runPipeline
    rw [hrows]
    rfl

/-- C9 witness: a concrete bad record exits nonzero with no report, and
a concrete fully parseable record exits 0. -/
theorem parse_failure_witness :
    (exitCode [badRaw] ≠ 0 ∧ emittedReport [badRaw] = none) ∧ exitCode [goodRaw] = 0 :=
  ⟨(parse_failure_and_success [badRaw]).1 ⟨badRaw, List.mem_cons_self _ _, Or.inl rfl⟩,
   (parse_failure_and_success [goodRaw]).2 (by decide)⟩

/-- C10: for a successfully processed input, every value of
`rolling_7d_revenue_by_region` is a number, never null: every region key
has a nonempty daily series, so the NaN branch is unreachable. -/
theorem rolling_values_all_numbers (raws : List RawRow) (rep : Report)
    (hne : raws ≠ []) (hok : runPipeline raws = .ok rep) :
    ∀ pr ∈ rep.rolling_7d_revenue_by_region, ∃ q, pr.2 = some q := by
  have hrows : ∃ rows, loadTable raws = .ok rows ∧ makeReport rows = rep := by
    unfold runPipeline at hok
    cases h : loadTable raws with
    | error msg =>
        rw [h] at hok
        exact absurd hok (by simp [Bind.bind, Except.bind])
    | ok rows =>
        rw [h] at hok
        exact ⟨rows, rfl, Except.ok.inj hok⟩
  obtain ⟨rows, _, rfl⟩ := hrows
  intro pr hpr
  have hpr2 : pr ∈ (regionKeys (derivedTable rows)).map
      fun g => (g, lastRollingValue (derivedTable rows) g) := hpr
  obtain ⟨g, hgmem, rfl⟩ := List.mem_map.1 hpr2
  have hg2 : g ∈ (derivedTable rows).map DRow.region :=
    mem_firstSeen.1 ((List.mem_insertionSort _).1 hgmem)
  exact lastRollingValue_isSome hg2

/-- C10 witness: the single entry of the rolling map of a concrete
one-row input holds a number. -/
theorem rolling_values_witness :
    ∃ q, (("R", lastRollingValue (derivedTable [goodRow]) "R") : String × Option Rat).2 =
      some q :=
  rolling_values_all_numbers [goodRaw] (makeReport [goodRow]) (by simp) rfl
    ("R", lastRollingValue (derivedTable [goodRow]) "R") (List.mem_cons_self _ _)

/-- C2 witness: with revenue only on day 1 and day 10, the rolling value
at day 10 is the window mean over `[4, 10]`, which holds day 10 alone,
so it equals day 10's daily total (70), not the average of both days. -/
theorem rolling_mean_calendar_witness :
    (rollingMeanAt (regionSeries (derivedTable gapInput) "G") 1 =
      listMean (((regionDates (derivedTable gapInput) "G").filter
        fun e => (10 : Date) - 6 ≤ e ∧ e ≤ (10 : Date)).map
          (dailySum (derivedTable gapInput) "G"))) ∧
    rollingMeanAt (regionSeries (derivedTable gapInput) "G") 1 = 70 :=
  ⟨rolling_mean_is_calendar_window (derivedTable gapInput) "G" 1 10 (by decide),
   by norm_num +decide [rollingMeanAt, rollingWindowAt, regionSeries, regionDates,
     dailySum, derivedTable, deriveRevenue, gapInput, firstSeen, firstSeenAux,
     List.insertionSort, List.orderedInsert, listMean]⟩

/-- C3 witness: one region, one date, two products with revenues 100 and
50: the retained value is the window mean at the latest (single) date of
the daily region sums, namely 150, not a per-product value. -/
theorem retained_value_witness :
    (List.lookup "RegionX" (rolling_7d_revenue_by_region (derivedTable singleDayInput)) =
      some (some (round2 (listMean
        (((regionDates (derivedTable singleDayInput) "RegionX").filter
          fun e => (1 : Date) - 6 ≤ e ∧ e ≤ (1 : Date)).map
            (dailySum (derivedTable singleDayInput) "RegionX")))))) ∧
    List.lookup "RegionX" (rolling_7d_revenue_by_region (derivedTable singleDayInput)) =
      some (some 150) :=
  ⟨retained_value_at_latest_date (derivedTable singleDayInput) "RegionX" 1
      (by decide) (by decide),
   by norm_num +decide [rolling_7d_revenue_by_region, regionKeys, lastRollingValue,
     rollingMeanAt, rollingWindowAt, regionSeries, regionDates, dailySum,
     derivedTable, deriveRevenue, singleDayInput, firstSeen, firstSeenAux,
     List.insertionSort, List.orderedInsert, labelLe, listMean, round2, round_eq,
     List.lookup]⟩

end Analyze
